import Mathlib

/-! S5L8730 AES engine probe: register window and pagemap translation.

A shallow embedding of `aes-test.c` (bounds-checked 32-bit register access over
the mapping of `0x100` bytes at `0x38c00000`, the register script of `main`)
and of `virt-to-phys.c` (decoding of one 8-byte pagemap entry and the
virtual-to-physical translation built on it).

Conventions of the embedding.

* `uint32_t`, `uintptr_t`, `size_t` values are natural numbers; where C
  arithmetic wraps, the wrap is written out as `% 2 ^ 32` or `% 2 ^ W`, with
  `W` the width of `uintptr_t`/`size_t` (32 on the ARM target, 64 on LP64).
* A call that reaches `exit(-1)` yields `Outcome.exit`; a use of a variable
  that was never written yields `Outcome.indeterminate`; a loop that is still
  running when the fuel of the model is used up yields `Outcome.spin`.
* `aes_mem` is a plain pointer: a load or store through it is not checked
  against the `0x100` bytes asked from `mmap`, so the words are indexed by all
  of `Nat` and `AES_MAP_WORDS` names how many of them lie inside those bytes.
* Text written with `printf` is kept only where it carries data (the
  offset/value pairs of `dump_mem`, the status words of the polling loop).
-/

namespace AesEngine

/-! ## Outcomes -/

/-- Reasons for which the program prints a message and calls `exit(-1)`. -/
inductive Fatal
  | invalid_write (register_offset : Nat)
  | invalid_read (register_offset : Nat)
  | pagemap_open
  | pagemap_entry
  deriving DecidableEq, Repr

/-- Result of running a piece of the program. -/
inductive Outcome (α : Type)
  | ret (a : α)
  | exit (why : Fatal)
  | indeterminate
  | spin
  deriving DecidableEq, Repr

/-- Sequencing of two program pieces: the second runs only if the first returns. -/
def Outcome.bind {α β : Type} : Outcome α → (α → Outcome β) → Outcome β
  | .ret a, f => f a
  | .exit why, _ => .exit why
  | .indeterminate, _ => .indeterminate
  | .spin, _ => .spin

instance : Monad Outcome where
  pure := Outcome.ret
  bind := Outcome.bind

/-! ## `aes-test.c`: register constants -/

def AES_REGISTER_BASE : Nat := 0x38c00000

def AES_REGISTER_CONTROL : Nat := AES_REGISTER_BASE + 0x00
def AES_REGISTER_GO : Nat := AES_REGISTER_BASE + 0x04
def AES_REGISTER_KEY_UNKNOWN : Nat := AES_REGISTER_BASE + 0x08
def AES_REGISTER_STATUS : Nat := AES_REGISTER_BASE + 0x0c
def AES_REGISTER_UNKNOWN_1 : Nat := AES_REGISTER_BASE + 0x10
def AES_REGISTER_KEY_CONTROL_TEST : Nat := AES_REGISTER_BASE + 0x14
def AES_REGISTER_OUT_SIZE : Nat := AES_REGISTER_BASE + 0x18
def AES_REGISTER_OUT_UNUSED : Nat := AES_REGISTER_BASE + 0x1c
def AES_REGISTER_OUT_ADDRESS : Nat := AES_REGISTER_BASE + 0x20
def AES_REGISTER_IN_SIZE : Nat := AES_REGISTER_BASE + 0x24
def AES_REGISTER_IN_ADDRESS : Nat := AES_REGISTER_BASE + 0x28
def AES_REGISTER_AUX_SIZE : Nat := AES_REGISTER_BASE + 0x2c
def AES_REGISTER_AUX_ADDR : Nat := AES_REGISTER_BASE + 0x30
def AES_REGISTER_ADDITIONAL_SIZE : Nat := AES_REGISTER_BASE + 0x34
def AES_REGISTER_UNKNOWN_2 : Nat := AES_REGISTER_BASE + 0x38
def AES_REGISTER_UNKNOWN_3 : Nat := AES_REGISTER_BASE + 0x3c
def AES_REGISTER_UNKNOWN_4 : Nat := AES_REGISTER_BASE + 0x40
def AES_REGISTER_UNKNOWN_5 : Nat := AES_REGISTER_BASE + 0x44
def AES_REGISTER_UNKNOWN_6 : Nat := AES_REGISTER_BASE + 0x48
def AES_REGISTER_KEY1 : Nat := AES_REGISTER_BASE + 0x4c
def AES_REGISTER_KEY2 : Nat := AES_REGISTER_BASE + 0x50
def AES_REGISTER_KEY3 : Nat := AES_REGISTER_BASE + 0x54
def AES_REGISTER_KEY4 : Nat := AES_REGISTER_BASE + 0x58
def AES_REGISTER_KEY5 : Nat := AES_REGISTER_BASE + 0x5c
def AES_REGISTER_KEY6 : Nat := AES_REGISTER_BASE + 0x60
def AES_REGISTER_KEY7 : Nat := AES_REGISTER_BASE + 0x64
def AES_REGISTER_KEY8 : Nat := AES_REGISTER_BASE + 0x68
def AES_REGISTER_KEY_TYPE : Nat := AES_REGISTER_BASE + 0x6c
def AES_REGISTER_OPERATION_UNKNOWN : Nat := AES_REGISTER_BASE + 0x70
def AES_REGISTER_IV1 : Nat := AES_REGISTER_BASE + 0x74
def AES_REGISTER_IV2 : Nat := AES_REGISTER_BASE + 0x78
def AES_REGISTER_IV3 : Nat := AES_REGISTER_BASE + 0x7c
def AES_REGISTER_IV4 : Nat := AES_REGISTER_BASE + 0x80
def AES_REGISTER_UKNOWN_UNUSED_1 : Nat := AES_REGISTER_BASE + 0x84
def AES_REGISTER_KEY_TYPE_AGAIN : Nat := AES_REGISTER_BASE + 0x88

def AES_KEY_TYPE_CONTENTS : Nat := 0b00

/-- Every `AES_REGISTER_*` constant that `aes-test.c` defines below the base. -/
def AES_REGISTERS : List Nat :=
  [AES_REGISTER_CONTROL, AES_REGISTER_GO, AES_REGISTER_KEY_UNKNOWN, AES_REGISTER_STATUS,
   AES_REGISTER_UNKNOWN_1, AES_REGISTER_KEY_CONTROL_TEST, AES_REGISTER_OUT_SIZE,
   AES_REGISTER_OUT_UNUSED, AES_REGISTER_OUT_ADDRESS, AES_REGISTER_IN_SIZE,
   AES_REGISTER_IN_ADDRESS, AES_REGISTER_AUX_SIZE, AES_REGISTER_AUX_ADDR,
   AES_REGISTER_ADDITIONAL_SIZE, AES_REGISTER_UNKNOWN_2, AES_REGISTER_UNKNOWN_3,
   AES_REGISTER_UNKNOWN_4, AES_REGISTER_UNKNOWN_5, AES_REGISTER_UNKNOWN_6,
   AES_REGISTER_KEY1, AES_REGISTER_KEY2, AES_REGISTER_KEY3, AES_REGISTER_KEY4,
   AES_REGISTER_KEY5, AES_REGISTER_KEY6, AES_REGISTER_KEY7, AES_REGISTER_KEY8,
   AES_REGISTER_KEY_TYPE, AES_REGISTER_OPERATION_UNKNOWN, AES_REGISTER_IV1,
   AES_REGISTER_IV2, AES_REGISTER_IV3, AES_REGISTER_IV4, AES_REGISTER_UKNOWN_UNUSED_1,
   AES_REGISTER_KEY_TYPE_AGAIN]

/-! ## `aes-test.c`: the mapped words -/

/-- Contents seen through the global `uint32_t *aes_mem`: the word at each index. -/
abbrev Mem := Nat → Nat

/-- Number of `uint32_t` words in the `0x100` bytes that `main` asks `mmap` for. -/
def AES_MAP_WORDS : Nat := 0x100 / 4

/-- Embedding of `write_uint32` (aes-test.c, lines 80-89). -/
def write_uint32 (aes_mem : Mem) (register_offset value : Nat) : Outcome Mem :=
  if register_offset < AES_REGISTER_BASE ∨ register_offset > AES_REGISTER_BASE + 0x100 then
    .exit (.invalid_write register_offset)
  else
    let adjusted_offset := (register_offset + 2 ^ 32 - AES_REGISTER_BASE) % 2 ^ 32
    let mmap_array_index := adjusted_offset / 4
    .ret (fun i => if i = mmap_array_index then value else aes_mem i)

/-- Embedding of `read_uint32` (aes-test.c, lines 92-103). -/
def read_uint32 (aes_mem : Mem) (register_offset : Nat) : Outcome Nat :=
  if register_offset < AES_REGISTER_BASE ∨ register_offset > AES_REGISTER_BASE + 0x100 then
    .exit (.invalid_read register_offset)
  else
    let adjusted_offset := (register_offset + 2 ^ 32 - AES_REGISTER_BASE) % 2 ^ 32
    let mmap_array_index := adjusted_offset / 4
    .ret (aes_mem mmap_array_index)

/-- Loop of `dump_mem` (aes-test.c, lines 127-134) from counter `i` on; the
result lists the `current_offset`/`current_value` pairs in the order printed. -/
def dump_mem_loop (aes_mem : Mem) : Nat → Nat → Outcome (List (Nat × Nat))
  | 0, i => if i < 0x90 then .spin else .ret []
  | fuel + 1, i =>
    if i < 0x90 then do
      let current_offset := (AES_REGISTER_BASE + i) % 2 ^ 32
      let current_value ← read_uint32 aes_mem current_offset
      let rest ← dump_mem_loop aes_mem fuel (i + 0x4)
      pure ((current_offset, current_value) :: rest)
    else
      .ret []

/-- Embedding of `dump_mem` (aes-test.c, lines 125-135): the counter starts at
`0` and grows by 4 below `0x90`, so `0x90` rounds of fuel are not used up. -/
def dump_mem (aes_mem : Mem) : Outcome (List (Nat × Nat)) :=
  dump_mem_loop aes_mem 0x90 0

/-- Embedding of `key_control_contents` (aes-test.c, lines 148-180): the sum of
the shifted terms, converted to `uint32_t` on return. -/
def key_control_contents : Nat :=
  ((1 <<< 31) + (1 <<< 30) + (1 <<< 29) + (1 <<< 28) +
   (1 <<< 27) + (1 <<< 26) + (1 <<< 25) + (1 <<< 24) +
   (1 <<< 23) + (1 <<< 22) + (1 <<< 21) + (1 <<< 20) +
   (1 <<< 19) + (1 <<< 18) + (1 <<< 17) + (1 <<< 16) +
   (1 <<< 15) + (1 <<< 14) + (1 <<< 13) + (1 <<< 12) +
   (1 <<< 11) + (1 <<< 10) + (1 <<< 9) + (1 <<< 8) +
   (1 <<< 7) + (1 <<< 6) +
   (0 <<< 5) + (0 <<< 4) +
   (1 <<< 3) + (0 <<< 2) +
   (1 <<< 1) +
   (1 <<< 0)) % 2 ^ 32

/-- Embedding of `setup_aes_key` (aes-test.c, lines 182-207). -/
def setup_aes_key (aes_mem : Mem) : Outcome Mem := do
  let aes_mem ← write_uint32 aes_mem AES_REGISTER_KEY5 0x05814102
  let aes_mem ← write_uint32 aes_mem AES_REGISTER_KEY6 0x2abeb3df
  let aes_mem ← write_uint32 aes_mem AES_REGISTER_KEY7 0x4862a7f2
  let aes_mem ← write_uint32 aes_mem AES_REGISTER_KEY8 0x02f726e0
  let aes_mem ← write_uint32 aes_mem AES_REGISTER_IV1 0
  let aes_mem ← write_uint32 aes_mem AES_REGISTER_IV2 0
  let aes_mem ← write_uint32 aes_mem AES_REGISTER_IV3 0
  write_uint32 aes_mem AES_REGISTER_IV4 0

/-- Register script of `main` from the first write up to the write of the go
bit (aes-test.c, lines 241-296), run on words that keep what is stored. The two
`uintptr_t` buffer addresses are converted to `uint32_t` when passed on. -/
def main_prepare (aes_mem : Mem) (phys_out_addr phys_in_addr : Nat) : Outcome Mem := do
  let aes_mem ← write_uint32 aes_mem AES_REGISTER_UKNOWN_UNUSED_1 0
  let _ ← dump_mem aes_mem
  let aes_mem ← write_uint32 aes_mem AES_REGISTER_OPERATION_UNKNOWN 0b001
  let aes_mem ← write_uint32 aes_mem AES_REGISTER_KEY_TYPE AES_KEY_TYPE_CONTENTS
  let weird_key_type_value ← read_uint32 aes_mem AES_REGISTER_KEY_TYPE
  let aes_mem ← write_uint32 aes_mem AES_REGISTER_KEY_TYPE_AGAIN
    (2 ^ 32 - 1 - weird_key_type_value % 2 ^ 32)
  let aes_mem ← write_uint32 aes_mem AES_REGISTER_CONTROL 1
  let aes_mem ← write_uint32 aes_mem AES_REGISTER_KEY_CONTROL_TEST key_control_contents
  let aes_mem ← write_uint32 aes_mem AES_REGISTER_OUT_SIZE 64
  let aes_mem ← write_uint32 aes_mem AES_REGISTER_OUT_ADDRESS (phys_out_addr % 2 ^ 32)
  let aes_mem ← write_uint32 aes_mem AES_REGISTER_IN_SIZE 64
  let aes_mem ← write_uint32 aes_mem AES_REGISTER_IN_ADDRESS (phys_in_addr % 2 ^ 32)
  let aes_mem ← write_uint32 aes_mem AES_REGISTER_AUX_SIZE 64
  let aes_mem ← write_uint32 aes_mem AES_REGISTER_AUX_ADDR (phys_in_addr % 2 ^ 32)
  let aes_mem ← write_uint32 aes_mem AES_REGISTER_ADDITIONAL_SIZE 64
  let aes_mem ← setup_aes_key aes_mem
  let _ ← dump_mem aes_mem
  let aes_mem ← write_uint32 aes_mem AES_REGISTER_STATUS 7
  write_uint32 aes_mem AES_REGISTER_GO 1

/-- Polling loop of `main` (aes-test.c, lines 298-307). The device decides what
each load returns: `hw k` is the content of the mapped words at the moment of
the read numbered `k` (from 0). The result lists the status words read, in
order; `k` is the number of reads already made. -/
def main_poll (hw : Nat → Mem) : Nat → Nat → Outcome (List Nat)
  | 0, _ => .spin
  | fuel + 1, k => do
    let current_status ← read_uint32 (hw k) AES_REGISTER_STATUS
    if current_status &&& 1 = 0 then
      pure [current_status]
    else do
      let rest ← main_poll hw fuel (k + 1)
      pure (current_status :: rest)

/-- Register accesses of `main` after the polling loop (aes-test.c, lines 312-315). -/
def main_finish (aes_mem : Mem) : Outcome (List (Nat × Nat)) := do
  let aes_mem ← write_uint32 aes_mem AES_REGISTER_CONTROL 0
  dump_mem aes_mem

/-! ## `virt-to-phys.c` -/

/-- The bit-field record `PagemapEntry` (virt-to-phys.c, lines 10-16): `pfn` is
55 bits wide, each flag one bit. -/
structure PagemapEntry where
  pfn : Nat
  soft_dirty : Nat
  file_page : Nat
  swapped : Nat
  present : Nat
  deriving DecidableEq, Repr

/-- The open pagemap file as `pread` sees it. `content o` is the byte stored at
file offset `o`. `grant k` tells how the call numbered `k` (from 0) ends: a
positive number is how many bytes the file is ready to transfer in that call,
`0` is end of file, a negative number is an error return. -/
structure PagemapSource where
  content : Nat → Nat
  grant : Nat → Int

/-- One `pread` call as issued by `pagemap_get_entry`, with its return value. -/
structure PreadCall where
  count : Nat
  offset : Nat
  ret : Int
  deriving DecidableEq, Repr

/-- The `n` bytes the file holds from `offset` on. -/
def file_bytes (src : PagemapSource) (offset n : Nat) : List Nat :=
  (List.range n).map fun i => src.content (offset + i) % 256

/-- POSIX `pread` on a `PagemapSource`: the call numbered `k` returns what the
source grants, never more than `count`, together with the bytes transferred. -/
def pread (src : PagemapSource) (k count offset : Nat) : Int × List Nat :=
  if src.grant k ≤ 0 then
    (src.grant k, [])
  else
    let n := min (src.grant k).toNat count
    ((n : Int), file_bytes src offset n)

/-- Value of a `uint64_t` whose bytes, lowest address first, are `bytes`
(little-endian host). -/
def le64 (bytes : List Nat) : Nat :=
  bytes.foldr (fun b acc => b + 256 * acc) 0

/-- What a call of `pagemap_get_entry` leaves behind: the `int` it returns, the
record stored through `entry` (`none` when nothing was stored), and the `pread`
calls it made. -/
structure GetEntry where
  ret : Int
  entry : Option PagemapEntry
  calls : List PreadCall
  deriving DecidableEq, Repr

/-- Read loop of `pagemap_get_entry` (virt-to-phys.c, lines 33-41). `k` counts
the `pread` calls made so far, `data` holds the `nread` bytes stored so far at
the start of the local `data`, so the store at `((uint8_t*)&data) + nread`
appends. The result is `(1, _, _)` for the `return 1` inside the loop and
`(0, data, _)` when the loop condition fails. -/
def pagemap_read_loop (W : Nat) (src : PagemapSource) (vpn : Nat) :
    Nat → Nat → Nat → List Nat → List PreadCall → Outcome (Int × List Nat × List PreadCall)
  | 0, _, nread, data, calls => if nread < 8 then .spin else .ret (0, data, calls)
  | fuel + 1, k, nread, data, calls =>
    if nread < 8 then
      let count := 8 - nread
      let offset := (vpn * 8 + nread) % 2 ^ W
      let ret := (pread src k count offset).1
      let data := data ++ (pread src k count offset).2
      let nread := Int.toNat (((nread : Int) + ret) % 2 ^ W)
      let calls := calls ++ [⟨count, offset, ret⟩]
      if ret ≤ 0 then
        .ret (1, data, calls)
      else
        pagemap_read_loop W src vpn fuel (k + 1) nread data calls
    else
      .ret (0, data, calls)

/-- Decoding of the 64-bit word `data` (virt-to-phys.c, lines 42-46); each
value stored already fits the width of its bit-field. -/
def pagemap_decode (data : Nat) : PagemapEntry where
  pfn := data &&& ((1 <<< 55) - 1)
  soft_dirty := (data >>> 55) &&& 1
  file_page := (data >>> 61) &&& 1
  swapped := (data >>> 62) &&& 1
  present := (data >>> 63) &&& 1

/-- Embedding of `pagemap_get_entry` (virt-to-phys.c, lines 25-48), with
`page_size` the value of `sysconf(_SC_PAGE_SIZE)`. Every round of the loop that
goes on has stored at least one more of the 8 bytes, so 8 rounds of fuel are
not used up. -/
def pagemap_get_entry (W page_size : Nat) (src : PagemapSource) (vaddr : Nat) :
    Outcome GetEntry := do
  let vpn := vaddr / page_size
  let (status, data, calls) ← pagemap_read_loop W src vpn 8 0 0 [] []
  if status ≠ 0 then
    pure ⟨1, none, calls⟩
  else
    pure ⟨0, some (pagemap_decode (le64 data)), calls⟩

/-- Conversion of a `uintptr_t` to the `int` (32 bits, two's complement) that
`virt_to_phys_user` returns. -/
def to_int (x : Nat) : Int :=
  if x % 2 ^ 32 < 2 ^ 31 then ((x % 2 ^ 32 : Nat) : Int) else ((x % 2 ^ 32 : Nat) : Int) - 2 ^ 32

/-- Embedding of `virt_to_phys_user` (virt-to-phys.c, lines 56-77). `pagemap` is
`none` when `open` fails. -/
def virt_to_phys_user (W page_size : Nat) (pagemap : Option PagemapSource) (vaddr : Nat) :
    Outcome Int :=
  match pagemap with
  | none => .exit .pagemap_open
  | some src => do
    let r ← pagemap_get_entry W page_size src vaddr
    if r.ret ≠ 0 then
      .exit .pagemap_entry
    else
      match r.entry with
      | none => .indeterminate
      | some entry =>
        let paddr := (entry.pfn * page_size + vaddr % page_size) % 2 ^ W
        pure (to_int paddr)

/-! ## Vocabulary of the statements -/

/-- The 64-bit entry the pagemap file holds for virtual page `vpn`: the 8 bytes
at offset `vpn * 8`, lowest byte first. -/
def pagemap_word (src : PagemapSource) (vpn : Nat) : Nat :=
  le64 (file_bytes src (vpn * 8) 8)

/-- The same file read in one piece: every `pread` is granted 8 bytes. -/
def single_read (src : PagemapSource) : PagemapSource :=
  { src with grant := fun _ => 8 }

/-- Each logged call asks for offset `vpn * 8 + nread` and length `8 - nread`,
where `nread` is the number of bytes the earlier calls returned. -/
def requests_follow (vpn : Nat) : Nat → List PreadCall → Prop
  | _, [] => True
  | nread, c :: cs =>
    c.offset = vpn * 8 + nread ∧ c.count = 8 - nread ∧
      requests_follow vpn (nread + c.ret.toNat) cs

/-- Each logged call was made with fewer than 8 bytes stored, as the next
`pread` on the source (numbered from `k`), and the log holds what that `pread`
returned. -/
def calls_match (W : Nat) (src : PagemapSource) (vpn : Nat) :
    Nat → Nat → List PreadCall → Prop
  | _, _, [] => True
  | k, nread, c :: cs =>
    nread < 8 ∧ c.count = 8 - nread ∧ c.offset = (vpn * 8 + nread) % 2 ^ W ∧
      c.ret = (pread src k c.count c.offset).1 ∧
      calls_match W src vpn (k + 1) (nread + c.ret.toNat) cs

/-- Whether a log follows the offsets and lengths can be computed. -/
def requests_follow_dec (vpn : Nat) :
    (nread : Nat) → (calls : List PreadCall) → Decidable (requests_follow vpn nread calls)
  | _, [] => isTrue trivial
  | nread, c :: cs =>
    match requests_follow_dec vpn (nread + c.ret.toNat) cs with
    | isTrue h =>
      if h1 : c.offset = vpn * 8 + nread ∧ c.count = 8 - nread then isTrue ⟨h1.1, h1.2, h⟩
      else isFalse fun h2 => h1 ⟨h2.1, h2.2.1⟩
    | isFalse h => isFalse fun h2 => h h2.2.2

instance (vpn nread : Nat) (calls : List PreadCall) :
    Decidable (requests_follow vpn nread calls) :=
  requests_follow_dec vpn nread calls

/-- Whether a log matches the `pread` calls of the source can be computed. -/
def calls_match_dec (W : Nat) (src : PagemapSource) (vpn : Nat) :
    (k nread : Nat) → (calls : List PreadCall) → Decidable (calls_match W src vpn k nread calls)
  | _, _, [] => isTrue trivial
  | k, nread, c :: cs =>
    match calls_match_dec W src vpn (k + 1) (nread + c.ret.toNat) cs with
    | isTrue h =>
      if h1 : nread < 8 ∧ c.count = 8 - nread ∧ c.offset = (vpn * 8 + nread) % 2 ^ W ∧
          c.ret = (pread src k c.count c.offset).1 then
        isTrue ⟨h1.1, h1.2.1, h1.2.2.1, h1.2.2.2, h⟩
      else isFalse fun h2 => h1 ⟨h2.1, h2.2.1, h2.2.2.1, h2.2.2.2.1⟩
    | isFalse h => isFalse fun h2 => h h2.2.2.2.2

instance (W : Nat) (src : PagemapSource) (vpn k nread : Nat) (calls : List PreadCall) :
    Decidable (calls_match W src vpn k nread calls) :=
  calls_match_dec W src vpn k nread calls

/-- A pagemap file whose entry for virtual page 5 is `word` and whose other
entries are zero, answering its reads as `grant` says. -/
def page5_source (word : Nat) (grant : Nat → Int) : PagemapSource where
  content := fun o => if o / 8 = 5 then word / 256 ^ (o % 8) % 256 else 0
  grant := grant

end AesEngine

/-! # Theorems -/

namespace AesEngine

/-! ## Sequencing -/

@[simp] theorem Outcome.pure_eq_ret {α : Type} (a : α) : (pure a : Outcome α) = .ret a := rfl

@[simp] theorem Outcome.ret_bind {α β : Type} (a : α) (f : α → Outcome β) :
    (Outcome.ret a >>= f) = f a := rfl

@[simp] theorem Outcome.exit_bind {α β : Type} (why : Fatal) (f : α → Outcome β) :
    (Outcome.exit why >>= f) = .exit why := rfl

@[simp] theorem Outcome.indeterminate_bind {α β : Type} (f : α → Outcome β) :
    (Outcome.indeterminate >>= f) = .indeterminate := rfl

@[simp] theorem Outcome.spin_bind {α β : Type} (f : α → Outcome β) :
    (Outcome.spin >>= f) = .spin := rfl

/-! ## Register window -/

/-- From the base up to `base + 0x100`, both ends included, the bounds check
passes and the store hits the word `(register_offset - base) / 4`. -/
theorem write_uint32_accepted (aes_mem : Mem) (register_offset value : Nat)
    (hlo : AES_REGISTER_BASE ≤ register_offset)
    (hhi : register_offset ≤ AES_REGISTER_BASE + 0x100) :
    write_uint32 aes_mem register_offset value =
      .ret (fun i => if i = (register_offset - AES_REGISTER_BASE) / 4 then value
        else aes_mem i) := by
  unfold write_uint32
  simp only [AES_REGISTER_BASE] at *
  have h1 : ¬ (register_offset < 0x38c00000 ∨ register_offset > 0x38c00000 + 0x100) := by omega
  have h2 : (register_offset + 2 ^ 32 - 0x38c00000) % 2 ^ 32 = register_offset - 0x38c00000 := by
    omega
  simp only [h1, h2, if_false]

/-- From the base up to `base + 0x100`, both ends included, the bounds check
passes and the load returns the word `(register_offset - base) / 4`. -/
theorem read_uint32_accepted (aes_mem : Mem) (register_offset : Nat)
    (hlo : AES_REGISTER_BASE ≤ register_offset)
    (hhi : register_offset ≤ AES_REGISTER_BASE + 0x100) :
    read_uint32 aes_mem register_offset =
      .ret (aes_mem ((register_offset - AES_REGISTER_BASE) / 4)) := by
  unfold read_uint32
  simp only [AES_REGISTER_BASE] at *
  have h1 : ¬ (register_offset < 0x38c00000 ∨ register_offset > 0x38c00000 + 0x100) := by omega
  have h2 : (register_offset + 2 ^ 32 - 0x38c00000) % 2 ^ 32 = register_offset - 0x38c00000 := by
    omega
  simp only [h1, h2, if_false]

/-- Below the base and above `base + 0x100` both accessors take the fatal branch. -/
theorem rejected_outside (aes_mem : Mem) (register_offset value : Nat)
    (h : register_offset < AES_REGISTER_BASE ∨ AES_REGISTER_BASE + 0x100 < register_offset) :
    write_uint32 aes_mem register_offset value = .exit (.invalid_write register_offset) ∧
    read_uint32 aes_mem register_offset = .exit (.invalid_read register_offset) := by
  have h1 : register_offset < AES_REGISTER_BASE ∨
      register_offset > AES_REGISTER_BASE + 0x100 := h
  constructor
  · unfold write_uint32; rw [if_pos h1]
  · unfold read_uint32; rw [if_pos h1]

/-- The loop of `dump_mem` visits the 36 word-aligned offsets below `0x90`. -/
theorem dump_mem_eq (aes_mem : Mem) :
    dump_mem aes_mem =
      .ret ((List.range 36).map fun j => (AES_REGISTER_BASE + 4 * j, aes_mem j)) := by
  rfl

/-- The status register is word 3 of the mapping. -/
theorem read_status (aes_mem : Mem) :
    read_uint32 aes_mem AES_REGISTER_STATUS = .ret (aes_mem 3) := by
  rfl

/-- One round of the polling loop. -/
theorem main_poll_succ (hw : Nat → Mem) (fuel k : Nat) :
    main_poll hw (fuel + 1) k =
      if hw k 3 % 2 = 0 then .ret [hw k 3]
      else (main_poll hw fuel (k + 1) >>= fun rest => .ret (hw k 3 :: rest)) := by
  rw [main_poll, read_status, Outcome.ret_bind, Nat.and_one_is_mod]
  rfl

/-- While every read finds bit 0 set, the loop goes on. -/
theorem main_poll_spin (hw : Nat → Mem) :
    ∀ (fuel k : Nat), (∀ j, k ≤ j → j < k + fuel → hw j 3 % 2 = 1) →
      main_poll hw fuel k = .spin := by
  intro fuel
  induction fuel with
  | zero => intro k _; rfl
  | succ fuel ih =>
    intro k h
    have hk : hw k 3 % 2 = 1 := h k (Nat.le_refl k) (by omega)
    rw [main_poll_succ, if_neg (by omega), ih (k + 1) (fun j h1 h2 => h j (by omega) (by omega))]
    rfl

/-- The loop started before read `k` returns after the first read with bit 0 clear. -/
theorem main_poll_from (hw : Nat → Mem) :
    ∀ (n k fuel : Nat), (∀ j, j < n → hw (k + j) 3 % 2 = 1) → hw (k + n) 3 % 2 = 0 →
      n < fuel →
      main_poll hw fuel k = .ret ((List.range (n + 1)).map fun j => hw (k + j) 3) := by
  intro n
  induction n with
  | zero =>
    intro k fuel _ hclr hfuel
    obtain ⟨f, rfl⟩ : ∃ f, fuel = f + 1 := ⟨fuel - 1, by omega⟩
    have hclr0 : hw k 3 % 2 = 0 := hclr
    rw [main_poll_succ, if_pos hclr0]
    rfl
  | succ n ih =>
    intro k fuel hset hclr hfuel
    obtain ⟨f, rfl⟩ : ∃ f, fuel = f + 1 := ⟨fuel - 1, by omega⟩
    have hk : hw k 3 % 2 = 1 := hset 0 (by omega)
    have hrest := ih (k + 1) f
      (fun j hj => by have := hset (j + 1) (by omega); rwa [show k + 1 + j = k + (j + 1) by omega])
      (by rwa [show k + 1 + n = k + (n + 1) by omega]) (by omega)
    rw [main_poll_succ, if_neg (by omega), hrest, Outcome.ret_bind]
    congr 1
    rw [List.range_succ_eq_map (n + 1), List.map_cons, List.map_map]
    congr 1
    apply List.map_congr_left
    intro j _
    simp only [Function.comp, Nat.succ_eq_add_one]
    rw [show k + 1 + j = k + (j + 1) by omega]

/-- Whenever the loop returns, it read the status words in order, the last one
has bit 0 clear and every earlier one has bit 0 set. -/
theorem main_poll_ret (hw : Nat → Mem) :
    ∀ (fuel k : Nat) (reads : List Nat), main_poll hw fuel k = .ret reads →
      ∃ n, reads = ((List.range (n + 1)).map fun j => hw (k + j) 3) ∧
        hw (k + n) 3 % 2 = 0 ∧ ∀ j, j < n → hw (k + j) 3 % 2 = 1 := by
  intro fuel
  induction fuel with
  | zero => intro k reads h; cases h
  | succ fuel ih =>
    intro k reads h
    rw [main_poll_succ] at h
    by_cases hk : hw k 3 % 2 = 0
    · rw [if_pos hk] at h
      cases h
      exact ⟨0, rfl, hk, fun j hj => absurd hj (Nat.not_lt_zero j)⟩
    · rw [if_neg hk] at h
      cases hrest : main_poll hw fuel (k + 1) with
      | ret rest =>
        rw [hrest, Outcome.ret_bind] at h
        cases h
        obtain ⟨n, hreads, hclr, hset⟩ := ih (k + 1) rest hrest
        refine ⟨n + 1, ?_, by rwa [show k + (n + 1) = k + 1 + n by omega], ?_⟩
        · rw [List.range_succ_eq_map (n + 1), List.map_cons, List.map_map, hreads]
          congr 1
          apply List.map_congr_left
          intro j _
          simp only [Function.comp, Nat.succ_eq_add_one]
          rw [show k + 1 + j = k + (j + 1) by omega]
        · intro j hj
          cases j with
          | zero => simpa using (by omega : hw k 3 % 2 = 1)
          | succ j =>
            have := hset j (by omega)
            rwa [show k + 1 + j = k + (j + 1) by omega] at this
      | exit why => rw [hrest] at h; cases h
      | indeterminate => rw [hrest] at h; cases h
      | spin => rw [hrest] at h; cases h

/-! ## Claims on the register window -/

/-- C1, evaluated at the address that breaks it: `0x38c00100` is the first
address past the window `[0x38c00000, 0x38c00000 + 0x100)`, yet neither
`write_uint32` nor `read_uint32` takes the fatal branch there: the one stores
to `aes_mem[64]`, the other loads `aes_mem[64]`, and 64 is not below the 64
words of the mapping. -/
theorem boundary_address_not_rejected (aes_mem : Mem) (value : Nat) :
    ¬ (0x38c00100 < AES_REGISTER_BASE + 0x100) ∧
    write_uint32 aes_mem 0x38c00100 value
      = .ret (fun i => if i = 64 then value else aes_mem i) ∧
    read_uint32 aes_mem 0x38c00100 = .ret (aes_mem 64) ∧
    (0x38c00100 - AES_REGISTER_BASE) / 4 = 64 ∧
    ¬ (64 < AES_MAP_WORDS) := by
  refine ⟨by decide, rfl, rfl, by decide, by decide⟩

/-- C2: for every register address in `[0x38c00000, 0x38c00000 + 0x100)` and
every value, `write_uint32` returns, and `read_uint32` at the same address on
the words it leaves returns exactly the value written; the word used is one
of the 64 words of the mapping and no word outside them is changed. -/
theorem write_read_round_trip (aes_mem : Mem) (register_offset value : Nat)
    (hlo : AES_REGISTER_BASE ≤ register_offset)
    (hhi : register_offset < AES_REGISTER_BASE + 0x100) :
    ∃ m, write_uint32 aes_mem register_offset value = .ret m ∧
      read_uint32 m register_offset = .ret value ∧
      (register_offset - AES_REGISTER_BASE) / 4 < AES_MAP_WORDS ∧
      ∀ i, AES_MAP_WORDS ≤ i → m i = aes_mem i := by
  have hidx : (register_offset - AES_REGISTER_BASE) / 4 < AES_MAP_WORDS := by
    simp only [AES_REGISTER_BASE, AES_MAP_WORDS] at *
    omega
  refine ⟨_, write_uint32_accepted aes_mem register_offset value hlo (by omega), ?_, hidx, ?_⟩
  · rw [read_uint32_accepted _ register_offset hlo (by omega)]
    simp
  · intro i hi
    have hne : i ≠ (register_offset - AES_REGISTER_BASE) / 4 := by omega
    simp [hne]

/-- Witness of C2 (the scenario of the specification, moved to the real base):
writing `0xdeadbeef` at `base + 0x20` and reading it back. -/
theorem write_read_round_trip_witness :
    AES_REGISTER_BASE ≤ 0x38c00020 ∧ 0x38c00020 < AES_REGISTER_BASE + 0x100 ∧
    ∃ m, write_uint32 (fun _ => 0) 0x38c00020 0xdeadbeef = .ret m ∧
      read_uint32 m 0x38c00020 = .ret 0xdeadbeef ∧
      (0x38c00020 - AES_REGISTER_BASE) / 4 < AES_MAP_WORDS ∧
      ∀ i, AES_MAP_WORDS ≤ i → m i = (fun _ => 0) i :=
  ⟨by decide, by decide,
    write_read_round_trip (fun _ => 0) 0x38c00020 0xdeadbeef (by decide) (by decide)⟩

/-- C8: every address the program passes to `read_uint32` or `write_uint32`
lies in `[0x38c00000, 0x38c00000 + 0x100)`: every `AES_REGISTER_*` constant,
and the 36 addresses `base + 4 * j` that `dump_mem` visits; so `dump_mem`,
`setup_aes_key` and the register accesses of `main` before, in and after the
polling loop never reach the fatal branch. -/
theorem callers_stay_in_window :
    (∀ a ∈ AES_REGISTERS, AES_REGISTER_BASE ≤ a ∧ a < AES_REGISTER_BASE + 0x100) ∧
    (∀ aes_mem : Mem, dump_mem aes_mem =
      .ret ((List.range 36).map fun j => (AES_REGISTER_BASE + 4 * j, aes_mem j))) ∧
    (∀ j, j < 36 → AES_REGISTER_BASE ≤ AES_REGISTER_BASE + 4 * j ∧
      AES_REGISTER_BASE + 4 * j < AES_REGISTER_BASE + 0x100) ∧
    (∀ aes_mem : Mem, ∃ m, setup_aes_key aes_mem = .ret m) ∧
    (∀ (aes_mem : Mem) (phys_out_addr phys_in_addr : Nat),
      ∃ m, main_prepare aes_mem phys_out_addr phys_in_addr = .ret m) ∧
    (∀ (hw : Nat → Mem) (fuel k : Nat),
      (∃ reads, main_poll hw fuel k = .ret reads) ∨ main_poll hw fuel k = .spin) ∧
    (∀ aes_mem : Mem, ∃ dump, main_finish aes_mem = .ret dump) := by
  refine ⟨by decide, dump_mem_eq, fun j hj => by omega, fun _ => ⟨_, rfl⟩,
    fun _ _ _ => ⟨_, rfl⟩, ?_, fun _ => ⟨_, rfl⟩⟩
  intro hw fuel
  induction fuel with
  | zero => intro k; exact Or.inr rfl
  | succ fuel ih =>
    intro k
    rw [main_poll_succ]
    by_cases hk : hw k 3 % 2 = 0
    · rw [if_pos hk]; exact Or.inl ⟨_, rfl⟩
    · rw [if_neg hk]
      rcases ih (k + 1) with ⟨rest, hrest⟩ | hspin
      · rw [hrest]; exact Or.inl ⟨_, rfl⟩
      · rw [hspin]; exact Or.inr rfl

/-- C9: let `hw k 3` be the value the read numbered `k` of the status register
returns. If read `k` is the first with bit 0 clear, the polling loop of `main`
makes exactly the `k + 1` reads `0, ..., k` and then stops (given more than `k`
rounds of fuel; with `k` rounds or fewer it is still running). Whenever the
loop stops, the last value read has bit 0 clear and every earlier one has it
set. The loop stops if and only if some read has bit 0 clear. -/
theorem polling_stops_at_first_clear (hw : Nat → Mem) :
    (∀ k, (∀ j, j < k → hw j 3 % 2 = 1) → hw k 3 % 2 = 0 →
      (∀ fuel, k < fuel →
        main_poll hw fuel 0 = .ret ((List.range (k + 1)).map fun j => hw j 3)) ∧
      (∀ fuel, fuel ≤ k → main_poll hw fuel 0 = .spin)) ∧
    (∀ fuel reads, main_poll hw fuel 0 = .ret reads →
      ∃ k, reads = ((List.range (k + 1)).map fun j => hw j 3) ∧ reads.length = k + 1 ∧
        hw k 3 % 2 = 0 ∧ ∀ j, j < k → hw j 3 % 2 = 1) ∧
    ((∃ fuel reads, main_poll hw fuel 0 = .ret reads) ↔ ∃ k, hw k 3 % 2 = 0) := by
  have hfirst : ∀ k, (∀ j, j < k → hw j 3 % 2 = 1) → hw k 3 % 2 = 0 →
      ∀ fuel, k < fuel →
        main_poll hw fuel 0 = .ret ((List.range (k + 1)).map fun j => hw j 3) := by
    intro k hset hclr fuel hfuel
    have h := main_poll_from hw k 0 fuel (fun j hj => by simpa using hset j hj)
      (by simpa using hclr) hfuel
    simpa using h
  have hret : ∀ fuel reads, main_poll hw fuel 0 = .ret reads →
      ∃ k, reads = ((List.range (k + 1)).map fun j => hw j 3) ∧ reads.length = k + 1 ∧
        hw k 3 % 2 = 0 ∧ ∀ j, j < k → hw j 3 % 2 = 1 := by
    intro fuel reads h
    obtain ⟨n, hreads, hclr, hset⟩ := main_poll_ret hw fuel 0 reads h
    refine ⟨n, by simpa using hreads, by simp [hreads], by simpa using hclr, ?_⟩
    intro j hj
    simpa using hset j hj
  refine ⟨fun k hset hclr => ⟨hfirst k hset hclr, ?_⟩, hret, ?_⟩
  · intro fuel hfuel
    exact main_poll_spin hw fuel 0 (fun j _ hj => hset j (by omega))
  · constructor
    · rintro ⟨fuel, reads, h⟩
      obtain ⟨k, _, _, hclr, _⟩ := hret fuel reads h
      exact ⟨k, hclr⟩
    · intro hex
      classical
      have hclr := Nat.find_spec hex
      have hset : ∀ j, j < Nat.find hex → hw j 3 % 2 = 1 := by
        intro j hj
        have := Nat.find_min hex hj
        omega
      exact ⟨Nat.find hex + 1, _, hfirst _ hset hclr _ (Nat.lt_succ_self _)⟩

/-- Witness of C9: the status register reads 7, 7, 7 and then 6; the fourth
read is the first with bit 0 clear and the loop makes exactly four reads. -/
theorem polling_stops_at_first_clear_witness :
    main_poll (fun k _ => if k < 3 then 7 else 6) 10 0 = .ret [7, 7, 7, 6] :=
  ((polling_stops_at_first_clear (fun k _ => if k < 3 then 7 else 6)).1 3
    (by decide) (by decide)).1 10 (by decide)

/-- C10: for every register address `a` that passes the bounds check and every
value, `write_uint32` returns and changes exactly the word at index
`(a - 0x38c00000) / 4`: that word holds the value and every other word is
unchanged. For every `b` that passes the bounds check, a later `read_uint32`
at `b` returns the value when `b` lies in the same aligned group of 4 bytes
as `a`, and what it returned before the write otherwise. -/
theorem write_changes_one_word (aes_mem : Mem) (a b value : Nat)
    (ha : ¬ (a < AES_REGISTER_BASE ∨ a > AES_REGISTER_BASE + 0x100))
    (hb : ¬ (b < AES_REGISTER_BASE ∨ b > AES_REGISTER_BASE + 0x100)) :
    ∃ m, write_uint32 aes_mem a value = .ret m ∧
      m ((a - AES_REGISTER_BASE) / 4) = value ∧
      (∀ i, i ≠ (a - AES_REGISTER_BASE) / 4 → m i = aes_mem i) ∧
      ((b - AES_REGISTER_BASE) / 4 = (a - AES_REGISTER_BASE) / 4 →
        read_uint32 m b = .ret value) ∧
      ((b - AES_REGISTER_BASE) / 4 ≠ (a - AES_REGISTER_BASE) / 4 →
        read_uint32 m b = read_uint32 aes_mem b) := by
  have ha1 : AES_REGISTER_BASE ≤ a := by omega
  have ha2 : a ≤ AES_REGISTER_BASE + 0x100 := by omega
  have hb1 : AES_REGISTER_BASE ≤ b := by omega
  have hb2 : b ≤ AES_REGISTER_BASE + 0x100 := by omega
  refine ⟨_, write_uint32_accepted aes_mem a value ha1 ha2, ?_, ?_, ?_, ?_⟩
  · simp
  · intro i hi; simp [hi]
  · intro h; rw [read_uint32_accepted _ b hb1 hb2]; simp [h]
  · intro h
    rw [read_uint32_accepted _ b hb1 hb2, read_uint32_accepted _ b hb1 hb2]
    simp [h]

/-- Witness of C10: a store at the unaligned address `base + 0x22` lands in the
word of `base + 0x20`; a load at `base + 0x21` sees it. -/
theorem write_changes_one_word_witness :
    ∃ m, write_uint32 (fun i => i) 0x38c00022 0xdeadbeef = .ret m ∧
      m ((0x38c00022 - AES_REGISTER_BASE) / 4) = 0xdeadbeef ∧
      (∀ i, i ≠ (0x38c00022 - AES_REGISTER_BASE) / 4 → m i = (fun i => i) i) ∧
      ((0x38c00021 - AES_REGISTER_BASE) / 4 = (0x38c00022 - AES_REGISTER_BASE) / 4 →
        read_uint32 m 0x38c00021 = .ret 0xdeadbeef) ∧
      ((0x38c00021 - AES_REGISTER_BASE) / 4 ≠ (0x38c00022 - AES_REGISTER_BASE) / 4 →
        read_uint32 m 0x38c00021 = read_uint32 (fun i => i) 0x38c00021) :=
  write_changes_one_word (fun i => i) 0x38c00022 0x38c00021 0xdeadbeef (by decide) (by decide)

/-! ## Pagemap entry -/

/-- A positive grant transfers that many bytes, at most `count`. -/
theorem pread_pos (src : PagemapSource) (k count offset : Nat) (h : 0 < src.grant k) :
    pread src k count offset =
      (((min (src.grant k).toNat count : Nat) : Int),
        file_bytes src offset (min (src.grant k).toNat count)) := by
  unfold pread
  rw [if_neg (by omega)]

/-- A grant of zero or less is returned as it is. -/
theorem pread_nonpos (src : PagemapSource) (k count offset : Nat) (h : src.grant k ≤ 0) :
    pread src k count offset = (src.grant k, []) := by
  unfold pread
  rw [if_pos h]

/-- Consecutive stretches of the file join up. -/
theorem file_bytes_append (src : PagemapSource) (offset a b : Nat) :
    file_bytes src offset a ++ file_bytes src (offset + a) b = file_bytes src offset (a + b) := by
  unfold file_bytes
  rw [List.range_add, List.map_append, List.map_map]
  congr 1
  apply List.map_congr_left
  intro i _
  simp [Function.comp, Nat.add_assoc]

/-- The `size_t` sum `nread + ret` does not wrap while it stays below `2 ^ W`. -/
theorem nread_add (W nread n : Nat) (h : nread + n < 2 ^ W) :
    Int.toNat (((nread : Int) + ((n : Nat) : Int)) % 2 ^ W) = nread + n := by
  have h1 : ((nread : Int) + ((n : Nat) : Int)) % 2 ^ W = (((nread + n) % 2 ^ W : Nat) : Int) := by
    push_cast
    rfl
  rw [h1, Nat.mod_eq_of_lt h, Int.toNat_natCast]

/-- Machine words of at least 32 bits hold the byte count 8. -/
theorem eight_lt_pow (W : Nat) (hW : 32 ≤ W) : 8 < 2 ^ W :=
  calc 8 < 2 ^ 32 := by decide
    _ ≤ 2 ^ W := Nat.pow_le_pow_right (by decide) hW

/-- For a `W`-bit address and pages of at least 8 bytes, the 8 bytes of the
entry lie at offsets that fit a `W`-bit word. -/
theorem entry_offset_fits (W page_size vaddr : Nat) (hW : 32 ≤ W) (hv : vaddr < 2 ^ W)
    (hps : 8 ≤ page_size) : vaddr / page_size * 8 + 8 ≤ 2 ^ W := by
  have h1 : vaddr / page_size ≤ vaddr / 8 := Nat.div_le_div_left hps (by decide)
  have h2 : 2 ^ W = 8 * 2 ^ (W - 3) := by
    rw [show (8 : Nat) = 2 ^ 3 by decide, ← Nat.pow_add]
    congr 1
    omega
  have h3 : vaddr / 8 < 2 ^ (W - 3) := by
    apply Nat.div_lt_of_lt_mul
    rw [← h2]
    exact hv
  omega

/-- With 8 bytes stored the loop is left, whatever fuel remains. -/
theorem read_loop_stop (W : Nat) (src : PagemapSource) (vpn fuel k nread : Nat)
    (data : List Nat) (calls : List PreadCall) (h : ¬ nread < 8) :
    pagemap_read_loop W src vpn fuel k nread data calls = .ret (0, data, calls) := by
  cases fuel with
  | zero => rw [pagemap_read_loop, if_neg h]
  | succ fuel => rw [pagemap_read_loop, if_neg h]

/-- A round whose `pread` returns zero or less ends the call with `return 1`. -/
theorem read_loop_fail (W : Nat) (src : PagemapSource) (vpn fuel k nread : Nat)
    (data : List Nat) (calls : List PreadCall) (h : nread < 8) (hg : src.grant k ≤ 0) :
    pagemap_read_loop W src vpn (fuel + 1) k nread data calls =
      .ret (1, data ++ [],
        calls ++ [⟨8 - nread, (vpn * 8 + nread) % 2 ^ W, src.grant k⟩]) := by
  rw [pagemap_read_loop, if_pos h]
  simp only [pread_nonpos src k _ _ hg, if_pos hg]

/-- A round whose `pread` returns bytes stores them and goes on. -/
theorem read_loop_step (W : Nat) (src : PagemapSource) (vpn fuel k nread : Nat)
    (data : List Nat) (calls : List PreadCall) (hW : 32 ≤ W) (h : nread < 8)
    (hg : 0 < src.grant k) :
    pagemap_read_loop W src vpn (fuel + 1) k nread data calls =
      pagemap_read_loop W src vpn fuel (k + 1)
        (nread + min (src.grant k).toNat (8 - nread))
        (data ++ file_bytes src ((vpn * 8 + nread) % 2 ^ W) (min (src.grant k).toNat (8 - nread)))
        (calls ++ [⟨8 - nread, (vpn * 8 + nread) % 2 ^ W,
          ((min (src.grant k).toNat (8 - nread) : Nat) : Int)⟩]) := by
  have h8 := eight_lt_pow W hW
  have hn : nread + min (src.grant k).toNat (8 - nread) < 2 ^ W := by omega
  have hpos : ¬ ((min (src.grant k).toNat (8 - nread) : Nat) : Int) ≤ 0 := by omega
  rw [pagemap_read_loop, if_pos h]
  simp only [pread_pos src k _ _ hg, nread_add W _ _ hn, if_neg hpos]

/-- When every read is granted at least one byte and the offsets of the entry
fit the machine word, the loop is left with the 8 bytes of the entry stored,
and its calls follow the offsets and lengths of the bytes still missing. -/
theorem read_loop_complete (W : Nat) (src : PagemapSource) (vpn : Nat) (hW : 32 ≤ W)
    (hoff : vpn * 8 + 8 ≤ 2 ^ W) (hgrant : ∀ k, k < 8 → 0 < src.grant k) :
    ∀ (fuel k nread : Nat) (data : List Nat) (calls : List PreadCall),
      k ≤ nread → nread ≤ 8 → 8 ≤ nread + fuel →
      ∃ calls1, pagemap_read_loop W src vpn fuel k nread data calls =
          .ret (0, data ++ file_bytes src (vpn * 8 + nread) (8 - nread), calls ++ calls1) ∧
        requests_follow vpn nread calls1 ∧ (∀ c ∈ calls1, 0 < c.ret) ∧
        nread + (calls1.map fun c => c.ret.toNat).sum = 8 := by
  intro fuel
  induction fuel with
  | zero =>
    intro k nread data calls _ h8 hfuel
    have h : nread = 8 := by omega
    subst h
    exact ⟨[], by rw [read_loop_stop _ _ _ _ _ _ _ _ (by omega)]; simp [file_bytes],
      trivial, by simp, by simp⟩
  | succ fuel ih =>
    intro k nread data calls hk h8 hfuel
    by_cases h : nread < 8
    · have hg := hgrant k (by omega)
      have hmod : (vpn * 8 + nread) % 2 ^ W = vpn * 8 + nread := Nat.mod_eq_of_lt (by omega)
      have hn1 : 1 ≤ min (src.grant k).toNat (8 - nread) := by omega
      have hn2 : min (src.grant k).toNat (8 - nread) ≤ 8 - nread := Nat.min_le_right _ _
      generalize hnd : min (src.grant k).toNat (8 - nread) = n at hn1 hn2
      obtain ⟨calls1, hrun, hfol, hposs, hsum⟩ := ih (k + 1) (nread + n)
        (data ++ file_bytes src (vpn * 8 + nread) n)
        (calls ++ [⟨8 - nread, vpn * 8 + nread, (n : Int)⟩]) (by omega) (by omega) (by omega)
      refine ⟨⟨8 - nread, vpn * 8 + nread, (n : Int)⟩ :: calls1, ?_, ?_, ?_, ?_⟩
      · rw [read_loop_step W src vpn fuel k nread data calls hW h hg, hmod, hnd, hrun]
        rw [List.append_assoc, List.append_assoc, ← Nat.add_assoc, file_bytes_append]
        rw [show n + (8 - (nread + n)) = 8 - nread by omega]
        rfl
      · exact ⟨rfl, rfl, by simpa using hfol⟩
      · intro c hc
        rcases List.mem_cons.1 hc with rfl | hc
        · show (0 : Int) < (n : Int)
          omega
        · exact hposs c hc
      · simp only [List.map_cons, List.sum_cons, Int.toNat_natCast]
        omega
    · have h : nread = 8 := by omega
      subst h
      exact ⟨[], by rw [read_loop_stop _ _ _ _ _ _ _ _ (by omega)]; simp [file_bytes],
        trivial, by simp, by simp⟩

/-- The loop always ends within the fuel of one round per missing byte: it
ends with status 0 when every `pread` it made returned bytes, and with status
1 when one returned zero or less; the log holds exactly the calls made. -/
theorem read_loop_total (W : Nat) (src : PagemapSource) (vpn : Nat) (hW : 32 ≤ W) :
    ∀ (fuel k nread : Nat) (data : List Nat) (calls : List PreadCall),
      nread ≤ 8 → 8 ≤ nread + fuel →
      ∃ status data1 calls1, pagemap_read_loop W src vpn fuel k nread data calls =
          .ret (status, data1, calls ++ calls1) ∧
        ((status = 0 ∧ ∀ c ∈ calls1, 0 < c.ret) ∨ (status = 1 ∧ ∃ c ∈ calls1, c.ret ≤ 0)) ∧
        calls_match W src vpn k nread calls1 := by
  intro fuel
  induction fuel with
  | zero =>
    intro k nread data calls h8 hfuel
    exact ⟨0, data, [], by rw [read_loop_stop _ _ _ _ _ _ _ _ (by omega)]; simp,
      Or.inl ⟨rfl, by simp⟩, trivial⟩
  | succ fuel ih =>
    intro k nread data calls h8 hfuel
    by_cases h : nread < 8
    · by_cases hg : 0 < src.grant k
      · have hn1 : 1 ≤ min (src.grant k).toNat (8 - nread) := by omega
        have hn2 : min (src.grant k).toNat (8 - nread) ≤ 8 - nread := Nat.min_le_right _ _
        have hp := pread_pos src k (8 - nread) ((vpn * 8 + nread) % 2 ^ W) hg
        generalize hnd : min (src.grant k).toNat (8 - nread) = n at hn1 hn2 hp
        obtain ⟨status, data1, calls1, hrun, hst, hmatch⟩ := ih (k + 1) (nread + n)
          (data ++ file_bytes src ((vpn * 8 + nread) % 2 ^ W) n)
          (calls ++ [⟨8 - nread, (vpn * 8 + nread) % 2 ^ W, (n : Int)⟩]) (by omega) (by omega)
        refine ⟨status, data1, ⟨8 - nread, (vpn * 8 + nread) % 2 ^ W, (n : Int)⟩ :: calls1,
          ?_, ?_, ?_⟩
        · rw [read_loop_step W src vpn fuel k nread data calls hW h hg, hnd, hrun]
          simp
        · rcases hst with ⟨h0, hall⟩ | ⟨h1, c, hc, hle⟩
          · refine Or.inl ⟨h0, ?_⟩
            intro c hc
            rcases List.mem_cons.1 hc with rfl | hc
            · show (0 : Int) < (n : Int)
              omega
            · exact hall c hc
          · exact Or.inr ⟨h1, c, List.mem_cons_of_mem _ hc, hle⟩
        · refine ⟨h, rfl, rfl, ?_, by simpa using hmatch⟩
          show (n : Int) = (pread src k (8 - nread) ((vpn * 8 + nread) % 2 ^ W)).1
          rw [hp]
      · have hg : src.grant k ≤ 0 := by omega
        refine ⟨1, data ++ [], [⟨8 - nread, (vpn * 8 + nread) % 2 ^ W, src.grant k⟩],
          read_loop_fail W src vpn fuel k nread data calls h hg,
          Or.inr ⟨rfl, _, List.mem_singleton.2 rfl, hg⟩, ?_⟩
        refine ⟨h, rfl, rfl, ?_, trivial⟩
        show src.grant k = (pread src k (8 - nread) ((vpn * 8 + nread) % 2 ^ W)).1
        rw [pread_nonpos src k _ _ hg]
    · exact ⟨0, data, [], by rw [read_loop_stop _ _ _ _ _ _ _ _ h]; simp,
        Or.inl ⟨rfl, by simp⟩, trivial⟩

/-- The masks and shifts of the decoding, as remainders and quotients. -/
theorem pagemap_decode_eq (d : Nat) :
    pagemap_decode d =
      ⟨d % 2 ^ 55, d / 2 ^ 55 % 2, d / 2 ^ 61 % 2, d / 2 ^ 62 % 2, d / 2 ^ 63 % 2⟩ := by
  unfold pagemap_decode
  have hm : (1 <<< 55) - 1 = 2 ^ 55 - 1 := by decide
  simp only [hm, Nat.and_pow_two_sub_one_eq_mod, Nat.shiftRight_eq_div_pow, Nat.and_one_is_mod]

/-- A little-endian value of `n` bytes is below `256 ^ n`. -/
theorem le64_lt (bytes : List Nat) (h : ∀ b ∈ bytes, b < 256) :
    le64 bytes < 256 ^ bytes.length := by
  induction bytes with
  | nil => simp [le64]
  | cons b bs ih =>
    have hb := h b (List.mem_cons_self b bs)
    have hbs := ih (fun x hx => h x (List.mem_cons_of_mem b hx))
    have hstep : le64 (b :: bs) = b + 256 * le64 bs := rfl
    rw [hstep, List.length_cons, Nat.pow_succ]
    omega

/-- A pagemap entry is a 64-bit word. -/
theorem pagemap_word_lt (src : PagemapSource) (vpn : Nat) : pagemap_word src vpn < 2 ^ 64 := by
  have h := le64_lt (file_bytes src (vpn * 8) 8) (by
    intro b hb
    simp only [file_bytes, List.mem_map] at hb
    obtain ⟨i, _, rfl⟩ := hb
    exact Nat.mod_lt _ (by decide))
  simpa [file_bytes] using h

/-- When every read is granted at least one byte, `pagemap_get_entry` returns 0
with the decoding of the entry the file holds for the page of `vaddr`. -/
theorem pagemap_get_entry_complete (W page_size : Nat) (src : PagemapSource) (vaddr : Nat)
    (hW : 32 ≤ W) (hoff : vaddr / page_size * 8 + 8 ≤ 2 ^ W)
    (hgrant : ∀ k, k < 8 → 0 < src.grant k) :
    ∃ calls, pagemap_get_entry W page_size src vaddr =
        .ret ⟨0, some (pagemap_decode (pagemap_word src (vaddr / page_size))), calls⟩ ∧
      requests_follow (vaddr / page_size) 0 calls ∧ (∀ c ∈ calls, 0 < c.ret) ∧
      (calls.map fun c => c.ret.toNat).sum = 8 := by
  obtain ⟨calls, hrun, hfol, hpos, hsum⟩ :=
    read_loop_complete W src (vaddr / page_size) hW hoff hgrant 8 0 0 [] []
      (by omega) (by omega) (by omega)
  refine ⟨calls, ?_, hfol, hpos, by omega⟩
  unfold pagemap_get_entry
  simp only [hrun, Outcome.ret_bind]
  simp [pagemap_word]

/-- When every read is granted at least one byte, `virt_to_phys_user` returns
the `int` made of the frame field of the entry, whatever its flags. -/
theorem virt_to_phys_user_complete (W page_size : Nat) (src : PagemapSource) (vaddr : Nat)
    (hW : 32 ≤ W) (hoff : vaddr / page_size * 8 + 8 ≤ 2 ^ W)
    (hgrant : ∀ k, k < 8 → 0 < src.grant k) :
    virt_to_phys_user W page_size (some src) vaddr =
      .ret (to_int ((pagemap_word src (vaddr / page_size) % 2 ^ 55 * page_size
        + vaddr % page_size) % 2 ^ W)) := by
  obtain ⟨calls, hget, _⟩ := pagemap_get_entry_complete W page_size src vaddr hW hoff hgrant
  unfold virt_to_phys_user
  simp only [hget, Outcome.ret_bind, pagemap_decode_eq]
  simp

/-- An address below `2 ^ 31` survives the conversion to `uintptr_t` and `int`. -/
theorem to_int_small (W x : Nat) (hW : 32 ≤ W) (hx : x < 2 ^ 31) :
    to_int (x % 2 ^ W) = (x : Int) := by
  have h32 : (2 : Nat) ^ 32 ≤ 2 ^ W := Nat.pow_le_pow_right (by decide) hW
  have h1 : x % 2 ^ W = x := Nat.mod_eq_of_lt (by omega)
  have h2 : x % 2 ^ 32 = x := Nat.mod_eq_of_lt (by omega)
  unfold to_int
  rw [h1, h2, if_pos hx]

/-- When the first `pread` is granted all 8 bytes, `pagemap_get_entry` makes
that one call and decodes the entry of the page. -/
theorem pagemap_get_entry_single (W page_size : Nat) (src : PagemapSource) (vaddr : Nat)
    (hW : 32 ≤ W) (hoff : vaddr / page_size * 8 + 8 ≤ 2 ^ W) :
    pagemap_get_entry W page_size (single_read src) vaddr =
      .ret ⟨0, some (pagemap_decode (pagemap_word src (vaddr / page_size))),
        [⟨8, vaddr / page_size * 8, 8⟩]⟩ := by
  have hmod : (vaddr / page_size * 8 + 0) % 2 ^ W = vaddr / page_size * 8 :=
    Nat.mod_eq_of_lt (by omega)
  have hg : 0 < (single_read src).grant 0 := by
    show (0 : Int) < 8
    decide
  have hmin : min (Int.toNat ((single_read src).grant 0)) (8 - 0) = 8 := rfl
  have hstep := read_loop_step W (single_read src) (vaddr / page_size) 7 0 0 [] [] hW
    (by decide) hg
  rw [hmin, hmod, read_loop_stop W (single_read src) (vaddr / page_size) 7 (0 + 1) (0 + 8) _ _
    (by decide)] at hstep
  unfold pagemap_get_entry
  simp only [hstep, Outcome.ret_bind]
  rfl

/-- The call `pagemap_get_entry` always returns, with 0 or 1: 1 exactly when one
of the `pread` calls it made returned zero or less, and then nothing is stored
through `entry`. -/
theorem pagemap_get_entry_total (W page_size : Nat) (src : PagemapSource) (vaddr : Nat)
    (hW : 32 ≤ W) :
    ∃ r, pagemap_get_entry W page_size src vaddr = .ret r ∧ (r.ret = 0 ∨ r.ret = 1) ∧
      (r.ret = 1 ↔ ∃ c ∈ r.calls, c.ret ≤ 0) ∧
      calls_match W src (vaddr / page_size) 0 0 r.calls := by
  obtain ⟨status, data1, calls1, hrun, hst, hmatch⟩ :=
    read_loop_total W src (vaddr / page_size) hW 8 0 0 [] [] (by omega) (by omega)
  rw [List.nil_append] at hrun
  rcases hst with ⟨h0, hall⟩ | ⟨h1, c, hc, hle⟩
  · subst h0
    refine ⟨⟨0, some (pagemap_decode (le64 data1)), calls1⟩, ?_, Or.inl rfl, ?_, hmatch⟩
    · unfold pagemap_get_entry
      simp only [hrun, Outcome.ret_bind]
      rfl
    · constructor
      · intro h; cases h
      · rintro ⟨c, hc, hle⟩
        have := hall c hc
        omega
  · subst h1
    refine ⟨⟨1, none, calls1⟩, ?_, Or.inr rfl, ?_, hmatch⟩
    · unfold pagemap_get_entry
      simp only [hrun, Outcome.ret_bind]
      rfl
    · exact ⟨fun _ => ⟨c, hc, hle⟩, fun _ => rfl⟩

/-! ## Claims on the pagemap translation -/

/-- C3, refuted as stated: the entry of page 5 is present with frame number
`2 ^ 20`, which fits the 55-bit field; for the address `0x5011` and pages of
4096 bytes the claim promises `2 ^ 20 * 4096 + 0x11`, but `virt_to_phys_user`
returns 17, with 32-bit and with 64-bit pointers alike. -/
theorem translation_wraps_counterexample :
    pagemap_word (page5_source (2 ^ 63 + 2 ^ 20) (fun _ => 8)) (0x5011 / 4096) / 2 ^ 63 % 2 = 1 ∧
    pagemap_word (page5_source (2 ^ 63 + 2 ^ 20) (fun _ => 8)) (0x5011 / 4096) % 2 ^ 55
      = 2 ^ 20 ∧
    virt_to_phys_user 32 4096 (some (page5_source (2 ^ 63 + 2 ^ 20) (fun _ => 8))) 0x5011
      = .ret 17 ∧
    virt_to_phys_user 64 4096 (some (page5_source (2 ^ 63 + 2 ^ 20) (fun _ => 8))) 0x5011
      = .ret 17 ∧
    (17 : Int) ≠ ((2 ^ 20 * 4096 + 0x5011 % 4096 : Nat) : Int) := by
  refine ⟨by decide, by decide, by decide, by decide, by decide⟩

/-- C3, amended: for pointers of at least 32 bits, a positive page size, a
virtual address whose entry offset fits the machine word, and a pagemap source
that grants every read at least one byte and whose entry for the page of the
address is present with frame number `f`, `virt_to_phys_user` returns exactly
`f * page_size + vaddr % page_size` whenever that address is below `2 ^ 31`. -/
theorem translation_within_range (W page_size : Nat) (src : PagemapSource) (vaddr f : Nat)
    (hW : 32 ≤ W) (hps : 0 < page_size) (hoff : vaddr / page_size * 8 + 8 ≤ 2 ^ W)
    (hgrant : ∀ k, k < 8 → 0 < src.grant k)
    (hpresent : pagemap_word src (vaddr / page_size) / 2 ^ 63 % 2 = 1)
    (hf : pagemap_word src (vaddr / page_size) % 2 ^ 55 = f)
    (hfit : f * page_size + vaddr % page_size < 2 ^ 31) :
    virt_to_phys_user W page_size (some src) vaddr =
      .ret ((f * page_size + vaddr % page_size : Nat) : Int) := by
  have _ := hps
  have _ := hpresent
  rw [virt_to_phys_user_complete W page_size src vaddr hW hoff hgrant, hf,
    to_int_small W _ hW hfit]

/-- Witness of C3: page 5 is present in frame 7; the address `0x5011` translates
to `7 * 4096 + 0x11`, the entry arriving in reads of 3, 3 and 2 bytes. -/
theorem translation_within_range_witness :
    virt_to_phys_user 32 4096 (some (page5_source (2 ^ 63 + 7) (fun _ => 3))) 0x5011
      = .ret ((7 * 4096 + 0x5011 % 4096 : Nat) : Int) :=
  translation_within_range 32 4096 (page5_source (2 ^ 63 + 7) (fun _ => 3)) 0x5011 7
    (by decide) (by decide) (by decide) (by decide) (by decide) (by decide) (by decide)

/-- C4, refuted as stated: the entry of page 5 has the present bit clear and
frame field 7; `virt_to_phys_user` does not fail but returns
`7 * 4096 + 0x11 = 28689`, computed from the frame field. -/
theorem absent_page_counterexample :
    pagemap_word (page5_source 7 (fun _ => 8)) (0x5011 / 4096) / 2 ^ 63 % 2 = 0 ∧
    virt_to_phys_user 32 4096 (some (page5_source 7 (fun _ => 8))) 0x5011 = .ret 28689 := by
  refine ⟨by decide, by decide⟩

/-- C4, amended: the present bit is not looked at. For a virtual address whose
entry has bit 63 clear and is read in full, `virt_to_phys_user` returns
`f * page_size + vaddr % page_size` computed from the frame field `f` of the
entry, whenever that value is below `2 ^ 31`. -/
theorem absent_page_translated (W page_size : Nat) (src : PagemapSource) (vaddr f : Nat)
    (hW : 32 ≤ W) (hps : 0 < page_size) (hoff : vaddr / page_size * 8 + 8 ≤ 2 ^ W)
    (hgrant : ∀ k, k < 8 → 0 < src.grant k)
    (habsent : pagemap_word src (vaddr / page_size) / 2 ^ 63 % 2 = 0)
    (hf : pagemap_word src (vaddr / page_size) % 2 ^ 55 = f)
    (hfit : f * page_size + vaddr % page_size < 2 ^ 31) :
    virt_to_phys_user W page_size (some src) vaddr =
      .ret ((f * page_size + vaddr % page_size : Nat) : Int) := by
  have _ := hps
  have _ := habsent
  rw [virt_to_phys_user_complete W page_size src vaddr hW hoff hgrant, hf,
    to_int_small W _ hW hfit]

/-- Witness of C4: an entry that is all zero (page absent, frame field 0) yields
the page offset `0x11` as the physical address. -/
theorem absent_page_translated_witness :
    virt_to_phys_user 32 4096 (some (page5_source 0 (fun _ => 8))) 0x5011
      = .ret ((0 * 4096 + 0x5011 % 4096 : Nat) : Int) :=
  absent_page_translated 32 4096 (page5_source 0 (fun _ => 8)) 0x5011 0
    (by decide) (by decide) (by decide) (by decide) (by decide) (by decide) (by decide)

/-- C5: when the 64-bit word `d` that the file holds for the page of `vaddr` is
read in full, `pagemap_get_entry` returns 0 and stores `pfn = d % 2 ^ 55`
(bits 0-54), `soft_dirty` = bit 55, `file_page` = bit 61, `swapped` = bit 62,
`present` = bit 63. A word that differs from `d` only in bits 56-60 decodes to
the same record, and `d` is the sum of its fields at their bit positions
whenever its bits 56-60 are zero. -/
theorem entry_bit_layout (W page_size : Nat) (src : PagemapSource) (vaddr d : Nat)
    (hW : 32 ≤ W) (hoff : vaddr / page_size * 8 + 8 ≤ 2 ^ W)
    (hgrant : ∀ k, k < 8 → 0 < src.grant k)
    (hd : pagemap_word src (vaddr / page_size) = d) :
    (∃ calls, pagemap_get_entry W page_size src vaddr =
      .ret ⟨0, some ⟨d % 2 ^ 55, d / 2 ^ 55 % 2, d / 2 ^ 61 % 2, d / 2 ^ 62 % 2,
        d / 2 ^ 63 % 2⟩, calls⟩) ∧
    (∀ d1, d1 % 2 ^ 56 = d % 2 ^ 56 → d1 / 2 ^ 61 = d / 2 ^ 61 →
      pagemap_decode d1 = pagemap_decode d) ∧
    (d / 2 ^ 56 % 2 ^ 5 = 0 →
      d = (pagemap_decode d).pfn + 2 ^ 55 * (pagemap_decode d).soft_dirty
        + 2 ^ 61 * (pagemap_decode d).file_page + 2 ^ 62 * (pagemap_decode d).swapped
        + 2 ^ 63 * (pagemap_decode d).present) := by
  have hlt : d < 2 ^ 64 := hd ▸ pagemap_word_lt src (vaddr / page_size)
  refine ⟨?_, ?_, ?_⟩
  · obtain ⟨calls, hget, _⟩ := pagemap_get_entry_complete W page_size src vaddr hW hoff hgrant
    exact ⟨calls, by rw [hget, hd, pagemap_decode_eq]⟩
  · intro d1 hlow hhigh
    rw [pagemap_decode_eq, pagemap_decode_eq]
    have h1 : d1 % 2 ^ 55 = d % 2 ^ 55 := by omega
    have h2 : d1 / 2 ^ 55 % 2 = d / 2 ^ 55 % 2 := by omega
    have h3 : d1 / 2 ^ 61 % 2 = d / 2 ^ 61 % 2 := by omega
    have e62 : ∀ x : Nat, x / 2 ^ 62 = x / 2 ^ 61 / 2 := fun x => by
      rw [Nat.div_div_eq_div_mul, show (2 : Nat) ^ 61 * 2 = 2 ^ 62 by decide]
    have e63 : ∀ x : Nat, x / 2 ^ 63 = x / 2 ^ 61 / 4 := fun x => by
      rw [Nat.div_div_eq_div_mul, show (2 : Nat) ^ 61 * 4 = 2 ^ 63 by decide]
    have h4 : d1 / 2 ^ 62 % 2 = d / 2 ^ 62 % 2 := by rw [e62 d1, e62 d, hhigh]
    have h5 : d1 / 2 ^ 63 % 2 = d / 2 ^ 63 % 2 := by rw [e63 d1, e63 d, hhigh]
    rw [h1, h2, h3, h4, h5]
  · intro hzero
    rw [pagemap_decode_eq]
    show d = d % 2 ^ 55 + 2 ^ 55 * (d / 2 ^ 55 % 2) + 2 ^ 61 * (d / 2 ^ 61 % 2)
      + 2 ^ 62 * (d / 2 ^ 62 % 2) + 2 ^ 63 * (d / 2 ^ 63 % 2)
    omega

/-- Witness of C5: the entry `2 ^ 63 + 2 ^ 61 + 2 ^ 55 + 7` of page 5, read in
pieces of 3, 3 and 2 bytes. -/
theorem entry_bit_layout_witness :
    ∃ calls, pagemap_get_entry 32 4096
        (page5_source (2 ^ 63 + 2 ^ 61 + 2 ^ 55 + 7) (fun _ => 3)) 0x5011 =
      .ret ⟨0, some ⟨(2 ^ 63 + 2 ^ 61 + 2 ^ 55 + 7) % 2 ^ 55,
        (2 ^ 63 + 2 ^ 61 + 2 ^ 55 + 7) / 2 ^ 55 % 2, (2 ^ 63 + 2 ^ 61 + 2 ^ 55 + 7) / 2 ^ 61 % 2,
        (2 ^ 63 + 2 ^ 61 + 2 ^ 55 + 7) / 2 ^ 62 % 2,
        (2 ^ 63 + 2 ^ 61 + 2 ^ 55 + 7) / 2 ^ 63 % 2⟩, calls⟩ :=
  (entry_bit_layout 32 4096 (page5_source (2 ^ 63 + 2 ^ 61 + 2 ^ 55 + 7) (fun _ => 3)) 0x5011
    (2 ^ 63 + 2 ^ 61 + 2 ^ 55 + 7) (by decide) (by decide) (by decide) (by decide)).1

/-- C6: when every read is granted at least one byte (so the 8 bytes of the entry
arrive over any sequence of short reads), `pagemap_get_entry` returns 0; each
`pread` it makes asks for offset `vpn * 8 + nread` and length `8 - nread`, with
`vpn = vaddr / page_size` and `nread` the bytes returned so far; every call
returns at least one byte and together they return 8; and the record stored is
the one stored when the same file hands over all 8 bytes in a single read. -/
theorem short_reads_assemble_entry (W page_size : Nat) (src : PagemapSource) (vaddr : Nat)
    (hW : 32 ≤ W) (hoff : vaddr / page_size * 8 + 8 ≤ 2 ^ W)
    (hgrant : ∀ k, k < 8 → 0 < src.grant k) :
    ∃ entry calls,
      pagemap_get_entry W page_size src vaddr = .ret ⟨0, some entry, calls⟩ ∧
      requests_follow (vaddr / page_size) 0 calls ∧
      calls_match W src (vaddr / page_size) 0 0 calls ∧
      (∀ c ∈ calls, 0 < c.ret) ∧ (calls.map fun c => c.ret.toNat).sum = 8 ∧
      pagemap_get_entry W page_size (single_read src) vaddr =
        .ret ⟨0, some entry, [⟨8, vaddr / page_size * 8, 8⟩]⟩ := by
  obtain ⟨calls, hget, hfol, hpos, hsum⟩ :=
    pagemap_get_entry_complete W page_size src vaddr hW hoff hgrant
  obtain ⟨r, hr, _, _, hmatch⟩ := pagemap_get_entry_total W page_size src vaddr hW
  rw [hget] at hr
  cases hr
  exact ⟨_, calls, hget, hfol, hmatch, hpos, hsum,
    pagemap_get_entry_single W page_size src vaddr hW hoff⟩

/-- Witness of C6: the entry of page 5 arrives in reads of 1, 2, 3 and 2 bytes,
asked for at offsets 40, 41, 43 and 46. -/
theorem short_reads_assemble_entry_witness :
    ∃ entry calls,
      pagemap_get_entry 32 4096
        (page5_source (2 ^ 63 + 7) (fun k => (k : Int) + 1)) 0x5011
        = .ret ⟨0, some entry, calls⟩ ∧
      requests_follow (0x5011 / 4096) 0 calls ∧
      calls_match 32 (page5_source (2 ^ 63 + 7) (fun k => (k : Int) + 1)) (0x5011 / 4096) 0 0
        calls ∧
      (∀ c ∈ calls, 0 < c.ret) ∧ (calls.map fun c => c.ret.toNat).sum = 8 ∧
      pagemap_get_entry 32 4096
        (single_read (page5_source (2 ^ 63 + 7) (fun k => (k : Int) + 1))) 0x5011
        = .ret ⟨0, some entry, [⟨8, 0x5011 / 4096 * 8, 8⟩]⟩ :=
  short_reads_assemble_entry 32 4096 (page5_source (2 ^ 63 + 7) (fun k => (k : Int) + 1)) 0x5011
    (by decide) (by decide) (by decide)

/-- C7: `pagemap_get_entry` always returns, with 0 or 1; it returns 1 if and only
if one of the `pread` calls it made (each made with fewer than 8 bytes stored)
returned zero or a negative value; and whenever it returns 1,
`virt_to_phys_user` ends in the fatal exit and returns no address. -/
theorem get_entry_fails_iff_read_fails (W page_size : Nat) (src : PagemapSource) (vaddr : Nat)
    (hW : 32 ≤ W) :
    ∃ r, pagemap_get_entry W page_size src vaddr = .ret r ∧ (r.ret = 0 ∨ r.ret = 1) ∧
      (r.ret = 1 ↔ ∃ c ∈ r.calls, c.ret ≤ 0) ∧
      calls_match W src (vaddr / page_size) 0 0 r.calls ∧
      (r.ret = 1 → virt_to_phys_user W page_size (some src) vaddr = .exit .pagemap_entry) := by
  obtain ⟨r, hr, h01, hiff, hmatch⟩ := pagemap_get_entry_total W page_size src vaddr hW
  refine ⟨r, hr, h01, hiff, hmatch, ?_⟩
  intro h1
  unfold virt_to_phys_user
  simp only [hr, Outcome.ret_bind]
  rw [if_pos (by rw [h1]; decide)]

/-- Witness of C7: the second read of the entry fails with -1. -/
theorem get_entry_fails_iff_read_fails_witness :
    ∃ r, pagemap_get_entry 32 4096
        (page5_source (2 ^ 63 + 7) (fun k => if k = 1 then -1 else 3)) 0x5011 = .ret r ∧
      (r.ret = 0 ∨ r.ret = 1) ∧
      (r.ret = 1 ↔ ∃ c ∈ r.calls, c.ret ≤ 0) ∧
      calls_match 32 (page5_source (2 ^ 63 + 7) (fun k => if k = 1 then -1 else 3))
        (0x5011 / 4096) 0 0 r.calls ∧
      (r.ret = 1 → virt_to_phys_user 32 4096
        (some (page5_source (2 ^ 63 + 7) (fun k => if k = 1 then -1 else 3))) 0x5011
          = .exit .pagemap_entry) :=
  get_entry_fails_iff_read_fails 32 4096
    (page5_source (2 ^ 63 + 7) (fun k => if k = 1 then -1 else 3)) 0x5011 (by decide)

end AesEngine
